import Mathlib

/-!
Shallow embedding of the asynchronous resource-loading subsystem of the
forkphorus repository (the code in the file defining namespace P.io): the
Throttler bounded-concurrency executor, the Retry exponential-backoff
wrapper, the Request XHR task, and the Loader progress aggregator.

Stateful TypeScript classes are modelled as explicit state records with
step functions over them.  Promise resolution and rejection are modelled
with Except; the value dispatched to a callback (onprogress, the promise
continuations) is returned explicitly, with Option none marking a
callback that is not invoked.  JS numbers that only ever hold integers
are modelled as Int or Nat; progress ratios and backoff delays are
modelled as rationals.
-/

/-! ## Throttler -/

/--
ThrottlerState mirrors the fields of class Throttler: the public bound
maxConcurrentTasks, the private counter concurrentTasks (a JS number,
modelled as Int so that non-negativity is a theorem rather than a typing
artifact) and the private queue of deferred run closures, identified
here by submission ids.  The extra fields running, started, settled and
submitted are history variables recording the ids of operations
currently in flight, ever started, ever settled and ever submitted, in
order; they let the ordering guarantees be stated and do not influence
the behaviour of the step functions.
-/
structure ThrottlerState where
  maxConcurrentTasks : Int
  concurrentTasks : Int
  queue : List Nat
  running : List Nat
  started : List Nat
  settled : List Nat
  submitted : List Nat
deriving DecidableEq

/-- Throttler.init is the state of a freshly constructed Throttler whose
maxConcurrentTasks field holds the given bound; the field initializers
of the source set concurrentTasks to 0 and the queue to empty. -/
def Throttler.init (max : Nat) : ThrottlerState :=
  ⟨(max : Int), 0, [], [], [], [], []⟩

/-- requestThrottler is the process-wide singleton Throttler; the source
field initializer for maxConcurrentTasks is 20. -/
def requestThrottler : ThrottlerState := Throttler.init 20

/-- startNextTask mirrors Throttler.startNextTask: return if the queue
is empty, return if concurrentTasks is at least maxConcurrentTasks,
otherwise shift the first queued closure, increment concurrentTasks and
invoke it (invocation is recorded by moving its id into running and
appending it to the started history). -/
def startNextTask (s : ThrottlerState) : ThrottlerState :=
  match s.queue with
  | [] => s
  | fn :: rest =>
      if s.concurrentTasks ≥ s.maxConcurrentTasks then s
      else { s with queue := rest,
                    concurrentTasks := s.concurrentTasks + 1,
                    running := s.running ++ [fn],
                    started := s.started ++ [fn] }

/-- Throttler.submit mirrors the body of the promise executor inside
Throttler.run: if concurrentTasks < maxConcurrentTasks, increment
concurrentTasks and invoke the operation now, otherwise push it onto the
queue.  The id is always appended to the submitted history. -/
def Throttler.submit (s : ThrottlerState) (id : Nat) : ThrottlerState :=
  if s.concurrentTasks < s.maxConcurrentTasks then
    { s with submitted := s.submitted ++ [id],
             concurrentTasks := s.concurrentTasks + 1,
             running := s.running ++ [id],
             started := s.started ++ [id] }
  else
    { s with submitted := s.submitted ++ [id],
             queue := s.queue ++ [id] }

/-- Throttler.settle mirrors the shared continuation installed by
Throttler.run in both .then and .catch: decrement concurrentTasks and
call startNextTask.  A promise settles exactly once and only after it
was started, so the step is guarded by membership of the id in the
running operations; the id is moved to the settled history. -/
def Throttler.settle (s : ThrottlerState) (id : Nat) : ThrottlerState :=
  if id ∈ s.running then
    startNextTask { s with concurrentTasks := s.concurrentTasks - 1,
                           running := s.running.erase id,
                           settled := s.settled ++ [id] }
  else s

/-- TEvent is an external event for the Throttler: a submission of a new
operation via run, or the settling (with success or failure recorded,
mirroring .then respectively .catch) of a running operation. -/
inductive TEvent where
  | submit (id : Nat)
  | settle (id : Nat) (success : Bool)
deriving DecidableEq

/-- throttlerStep dispatches one external event; the settle transition
is the same for a resolved and for a rejected operation, exactly as the
.then and .catch continuations in the source share their body. -/
def throttlerStep (s : ThrottlerState) : TEvent → ThrottlerState
  | .submit id => Throttler.submit s id
  | .settle id _success => Throttler.settle s id

/-- runEvents folds a sequence of external events over a state. -/
def runEvents (s : ThrottlerState) (evs : List TEvent) : ThrottlerState :=
  evs.foldl throttlerStep s

/-! ## Retry -/

/-- MAX_ATTEMPST is the attempt bound of Retry.try, spelled as in the
source. -/
def MAX_ATTEMPST : Nat := 4

/-- RetryResult packages the observable outcome of one call to
Retry.try: the settled value (error payload Option E because the JS
variable lastErr starts out undefined), the list of backoff sleeps
performed, in order, and how many times the handle was invoked. -/
structure RetryResult (E V : Type) where
  result : Except (Option E) V
  sleeps : List ℚ
  attemptsMade : Nat

/-- retryDelay is the backoff delay computed for attempt index i in
Retry.try: 2 ^ i * 500 * Math.random() + 50, with the value of
Math.random on that iteration supplied by rand. -/
def retryDelay (rand : Nat → ℚ) (i : Nat) : ℚ :=
  2 ^ i * 500 * rand i + 50

/-- retryTryFrom mirrors the loop of Retry.try from iteration i with the
given remaining fuel (the loop runs while i < MAX_ATTEMPST, so fuel is
MAX_ATTEMPST - i): await handle(); on success return its value; on
failure rethrow at once when the aborted flag is set at that iteration,
otherwise record lastErr, sleep the backoff delay and continue; when the
loop ends, throw lastErr.  The outcome of attempt i is supplied by
handle i, and the aborted flag observed at the failure of attempt i by
aborted i. -/
def retryTryFrom {E V : Type} (handle : Nat → Except E V) (aborted : Nat → Bool)
    (rand : Nat → ℚ) : Nat → Nat → Option E → RetryResult E V
  | 0, _, lastErr => ⟨.error lastErr, [], 0⟩
  | fuel + 1, i, _lastErr =>
      match handle i with
      | .ok v => ⟨.ok v, [], 1⟩
      | .error err =>
          if aborted i then ⟨.error (some err), [], 1⟩
          else
            let rest := retryTryFrom handle aborted rand fuel (i + 1) (some err)
            ⟨rest.result, retryDelay rand i :: rest.sleeps, rest.attemptsMade + 1⟩

/-- retryTry is Retry.try: the loop started at i = 0 with lastErr
undefined and MAX_ATTEMPST iterations available. -/
def retryTry {E V : Type} (handle : Nat → Except E V) (aborted : Nat → Bool)
    (rand : Nat → ℚ) : RetryResult E V :=
  retryTryFrom handle aborted rand MAX_ATTEMPST 0 none

/-! ## Request -/

/-- acceptableResponseCodes is the static field of class Request. -/
def acceptableResponseCodes : List Int := [0, 200]

/-- RequestError enumerates the rejection causes of Request loading; the
message strings of the source are elided. -/
inductive RequestError where
  | abortedBeforeStart
  | httpError (status : Int)
  | networkError
  | abortEvent
deriving DecidableEq

/-- XhrEvent is the terminal event of one XMLHttpRequest transfer
attempt: the load event carrying the HTTP status and the response body,
the error event, or the abort event. -/
inductive XhrEvent (ρ : Type) where
  | onload (status : Int) (response : ρ)
  | onerror
  | onabort

/-- requestLoadOutcome mirrors how one call to Request._load settles its
promise: reject at once when the aborted flag is already set; on the
load event resolve with the response when the status is listed in
acceptableResponseCodes or shouldIgnoreErrors is set, else reject with
an HTTP error; reject on the error event and on the abort event. -/
def requestLoadOutcome {ρ : Type} (aborted : Bool) (shouldIgnoreErrors : Bool)
    (ev : XhrEvent ρ) : Except RequestError ρ :=
  if aborted then .error .abortedBeforeStart
  else
    match ev with
    | .onload status response =>
        if acceptableResponseCodes.contains status || shouldIgnoreErrors then
          .ok response
        else .error (.httpError status)
    | .onerror => .error .networkError
    | .onabort => .error .abortEvent

/-- ProgressEvent carries the fields of a DOM ProgressEvent read by
Request.updateProgress. -/
structure ProgressEvent where
  lengthComputable : Bool
  total : ℚ
  loaded : ℚ
deriving DecidableEq

/-- RequestState mirrors the mutable fields of class Request; the xhr
reference is tracked only by whether it is non-null. -/
structure RequestState where
  workComputable : Bool
  totalWork : ℚ
  completedWork : ℚ
  complete : Bool
  status : Int
  aborted : Bool
  hasXhr : Bool
deriving DecidableEq

/-- Request.updateProgress copies the event fields into the request,
mirroring the private updateProgress method. -/
def Request.updateProgress (r : RequestState) (event : ProgressEvent) : RequestState :=
  { r with workComputable := event.lengthComputable,
           totalWork := event.total,
           completedWork := event.loaded }

/-- Request.onload mirrors the state mutation of the xhr.onload handler:
it stores the HTTP status (settling of the promise is modelled by
requestLoadOutcome). -/
def Request.onload (r : RequestState) (status : Int) : RequestState :=
  { r with status := status }

/-- Request.onloadend mirrors the xhr.onloadend handler: clear the xhr
reference, set complete to true, and update progress from the event.
The loadend event fires after success, failure and abort alike. -/
def Request.onloadend (r : RequestState) (event : ProgressEvent) : RequestState :=
  Request.updateProgress { r with hasXhr := false, complete := true } event

/-- Request.abort mirrors the Retry.abort part of Request.abort: the
aborted flag is set (the xhr.abort call is delivered as an abort event
followed by loadend by the transport). -/
def Request.abort (r : RequestState) : RequestState :=
  { r with aborted := true }

/-- Request.isComplete returns the complete flag. -/
def Request.isComplete (r : RequestState) : Bool := r.complete

/-! ## Loader and tasks -/

/-- MTask models the observable state of a registered task as the Loader
sees it: the result of isComplete(), the aborted flag, how many times
abort() has been invoked on it, and whether its loader back-reference is
currently set (setLoader with a non-null loader). -/
structure MTask where
  complete : Bool
  aborted : Bool
  abortCount : Nat
  hasLoader : Bool
deriving DecidableEq

/-- LoaderState mirrors the fields of class Loader: the list of
registered task ids in registration order, and the public aborted and
error flags. -/
structure LoaderState where
  tasks : List Nat
  aborted : Bool
  error : Bool
deriving DecidableEq

/-- LoaderSys is a loader together with the store of task objects it may
reference; tasks live in the store so that they persist after the loader
drops them (resetTasks, cleanup). -/
structure LoaderSys where
  loader : LoaderState
  store : Nat → MTask

/-- setTask updates one task object in the store. -/
def setTask (store : Nat → MTask) (id : Nat) (t : MTask) : Nat → MTask :=
  fun j => if j = id then t else store j

/-- Loader.totalTasks is the totalTasks local of calculateProgress. -/
def Loader.totalTasks (s : LoaderSys) : Nat := s.loader.tasks.length

/-- Loader.finishedTasks is the finishedTasks counter of
calculateProgress: the number of registered tasks whose isComplete() is
true. -/
def Loader.finishedTasks (s : LoaderSys) : Nat :=
  (s.loader.tasks.filter (fun id => (s.store id).complete)).length

/-- Loader.calculateProgress mirrors the private calculateProgress
method: 1 when aborted, 0 when no tasks are registered, otherwise the
ratio of finished tasks over total tasks. -/
def Loader.calculateProgress (s : LoaderSys) : ℚ :=
  if s.loader.aborted then 1
  else if Loader.totalTasks s = 0 then 0
  else (Loader.finishedTasks s : ℚ) / (Loader.totalTasks s : ℚ)

/-- Loader.updateProgress mirrors updateProgress: when the error flag is
set nothing happens (modelled as none), otherwise calculateProgress is
computed and its value is passed to the onprogress hook (modelled as
some of that value). -/
def Loader.updateProgress (s : LoaderSys) : Option ℚ :=
  if s.loader.error then none
  else some (Loader.calculateProgress s)

/-- Loader.resetTasks empties the registered task list and calls
updateProgress; the second component is the notification that call
dispatches. -/
def Loader.resetTasks (s : LoaderSys) : LoaderSys × Option ℚ :=
  (⟨{ s.loader with tasks := [] }, s.store⟩,
   Loader.updateProgress ⟨{ s.loader with tasks := [] }, s.store⟩)

/-- Loader.addTask appends the task to the registered list and binds the
task to this loader via setLoader. -/
def Loader.addTask (s : LoaderSys) (id : Nat) : LoaderSys :=
  ⟨{ s.loader with tasks := s.loader.tasks ++ [id] },
   setTask s.store id { s.store id with hasLoader := true }⟩

/-- taskAbort models one invocation of abort() on a task: the aborted
flag is set and the invocation is counted. -/
def taskAbort (t : MTask) : MTask :=
  { t with aborted := true, abortCount := t.abortCount + 1 }

/-- abortFold is the loop of Loader.abort: invoke abort() on each
listed task, in order. -/
def abortFold (l : List Nat) (store : Nat → MTask) : Nat → MTask :=
  l.foldl (fun st id => setTask st id (taskAbort (st id))) store

/-- Loader.abort mirrors abort: set the aborted flag and invoke abort()
on every registered task, in order. -/
def Loader.abort (s : LoaderSys) : LoaderSys :=
  ⟨{ s.loader with aborted := true }, abortFold s.loader.tasks s.store⟩

/-- cleanupFold is the loop of Loader.cleanup: call setLoader(null) on
each listed task, in order. -/
def cleanupFold (l : List Nat) (store : Nat → MTask) : Nat → MTask :=
  l.foldl (fun st id => setTask st id { st id with hasLoader := false }) store

/-- Loader.cleanup mirrors cleanup: call setLoader(null) on every
registered task, then truncate the registered list to length 0. -/
def Loader.cleanup (s : LoaderSys) : LoaderSys :=
  ⟨{ s.loader with tasks := [] }, cleanupFold s.loader.tasks s.store⟩

/-- updateLoaderProgress mirrors AbstractTask.updateLoaderProgress for
the task with the given id: when the task holds a loader reference it
calls updateProgress on the loader (the dispatched notification is
returned), otherwise nothing happens and nothing is dispatched. -/
def updateLoaderProgress (s : LoaderSys) (id : Nat) : Option ℚ :=
  if (s.store id).hasLoader then Loader.updateProgress s else none

/-- markComplete models a task completion event (Manual.markComplete,
or the completion path of Request and Img): the complete flag of the task is
set and updateLoaderProgress runs; the second component is the
notification that run dispatches. -/
def markComplete (s : LoaderSys) (id : Nat) : LoaderSys × Option ℚ :=
  (⟨s.loader, setTask s.store id { s.store id with complete := true }⟩,
   updateLoaderProgress ⟨s.loader, setTask s.store id { s.store id with complete := true }⟩ id)

/-- LEvent enumerates the Loader operations considered in the temporal
claims. -/
inductive LEvent where
  | addTask (id : Nat)
  | markComplete (id : Nat)
  | updateProgress
  | resetTasks
  | abortLoader
  | cleanup
deriving DecidableEq

/-- applyLEvent applies one Loader operation to the system state (the
dispatched progress notifications are dropped here; updateProgress does
not mutate state). -/
def applyLEvent (s : LoaderSys) : LEvent → LoaderSys
  | .addTask id => Loader.addTask s id
  | .markComplete id => (markComplete s id).1
  | .updateProgress => s
  | .resetTasks => (Loader.resetTasks s).1
  | .abortLoader => Loader.abort s
  | .cleanup => Loader.cleanup s

/-- applyLEvents folds a sequence of Loader operations over a state. -/
def applyLEvents (s : LoaderSys) (evs : List LEvent) : LoaderSys :=
  evs.foldl applyLEvent s

/-- isProgressOnlyEvent selects the events that are task completion
events or progress updates (no registration, reset, abort or cleanup). -/
def isProgressOnlyEvent : LEvent → Bool
  | .markComplete _ => true
  | .updateProgress => true
  | _ => false

/-- initLoaderSys is a fresh loader with no registered tasks over a
store of fresh tasks. -/
def initLoaderSys : LoaderSys :=
  ⟨⟨[], false, false⟩, fun _ => ⟨false, false, 0, false⟩⟩

/-- c5State is the loader reached from a fresh loader by registering
task 0 and then receiving its completion event. -/
def c5State : LoaderSys :=
  applyLEvents initLoaderSys [LEvent.addTask 0, LEvent.markComplete 0]

/-- ThrottlerInv is the inductive invariant of the Throttler transition
system: the counter agrees with the number of running operations, never
exceeds the bound, the queue is non-empty only at full capacity, starts
happen in submission order, and under a bound of 1 the settled history
followed by the in-flight and queued operations is exactly the
submission order. -/
def ThrottlerInv (s : ThrottlerState) : Prop :=
  s.concurrentTasks = (s.running.length : Int)
  ∧ s.concurrentTasks ≤ s.maxConcurrentTasks
  ∧ (s.queue ≠ [] → s.concurrentTasks = s.maxConcurrentTasks)
  ∧ s.started ++ s.queue = s.submitted
  ∧ (s.maxConcurrentTasks = 1 → s.settled ++ s.running ++ s.queue = s.submitted)


/-! ## Throttler invariants -/

theorem startNextTask_nil (s : ThrottlerState) (hq : s.queue = []) :
    startNextTask s = s := by
  rcases s with ⟨m, c, q, r, st, se, su⟩
  dsimp only at hq
  subst hq
  rfl

theorem startNextTask_cons (s : ThrottlerState) (fn : Nat) (rest : List Nat)
    (hq : s.queue = fn :: rest)
    (hroom : ¬ s.concurrentTasks ≥ s.maxConcurrentTasks) :
    startNextTask s = { s with queue := rest,
                               concurrentTasks := s.concurrentTasks + 1,
                               running := s.running ++ [fn],
                               started := s.started ++ [fn] } := by
  rcases s with ⟨m, c, q, r, st, se, su⟩
  dsimp only at hq hroom ⊢
  subst hq
  simp only [startNextTask]
  rw [if_neg hroom]

theorem startNextTask_max (s : ThrottlerState) :
    (startNextTask s).maxConcurrentTasks = s.maxConcurrentTasks := by
  rcases s with ⟨m, c, q, r, st, se, su⟩
  cases q with
  | nil => rfl
  | cons fn rest =>
      simp only [startNextTask]
      split <;> rfl

theorem throttlerStep_max (s : ThrottlerState) (ev : TEvent) :
    (throttlerStep s ev).maxConcurrentTasks = s.maxConcurrentTasks := by
  rcases ev with id | ⟨id, ok⟩
  · simp only [throttlerStep, Throttler.submit]
    split <;> rfl
  · simp only [throttlerStep, Throttler.settle]
    split
    · rw [startNextTask_max]
    · rfl

theorem runEvents_max (evs : List TEvent) (s : ThrottlerState) :
    (runEvents s evs).maxConcurrentTasks = s.maxConcurrentTasks := by
  induction evs generalizing s with
  | nil => rfl
  | cons e rest ih =>
      simp only [runEvents, List.foldl_cons]
      rw [show List.foldl throttlerStep (throttlerStep s e) rest
            = runEvents (throttlerStep s e) rest from rfl]
      rw [ih, throttlerStep_max]

theorem throttlerInv_init (max : Nat) : ThrottlerInv (Throttler.init max) := by
  refine ⟨rfl, ?_, ?_, rfl, ?_⟩ <;> simp [Throttler.init]

theorem throttlerInv_step (s : ThrottlerState) (ev : TEvent) (h : ThrottlerInv s) :
    ThrottlerInv (throttlerStep s ev) := by
  rcases s with ⟨m, c, q, r, st, se, su⟩
  obtain ⟨h1, h2, h3, h4, h5⟩ := h
  dsimp only at h1 h2 h3 h4 h5
  rcases ev with id | ⟨id, ok⟩
  · -- submit
    simp only [throttlerStep, Throttler.submit]
    by_cases hc : c < m
    · rw [if_pos hc]
      have hq0 : q = [] := by
        cases q with
        | nil => rfl
        | cons a q2 => exact absurd (h3 (by simp)) (by omega)
      subst hq0
      refine ⟨?_, ?_, ?_, ?_, ?_⟩
      · dsimp only
        simp only [List.length_append, List.length_cons, List.length_nil]
        omega
      · dsimp only
        omega
      · intro hne
        exact absurd rfl hne
      · dsimp only
        simp only [List.append_nil] at h4 ⊢
        rw [h4]
      · intro hm
        dsimp only at hm ⊢
        have h5m := h5 hm
        have hr : r = [] := List.length_eq_zero.mp (by omega)
        subst hr
        simp only [List.append_nil, List.nil_append] at h5m ⊢
        rw [h5m]
    · rw [if_neg hc]
      refine ⟨h1, h2, ?_, ?_, ?_⟩
      · intro _
        dsimp only
        omega
      · dsimp only
        rw [← List.append_assoc, h4]
      · intro hm
        dsimp only at hm ⊢
        have h5m := h5 hm
        rw [← List.append_assoc, h5m]
  · -- settle
    simp only [throttlerStep, Throttler.settle]
    by_cases hmem : id ∈ r
    · rw [if_pos hmem]
      have hlen : 0 < r.length := List.length_pos.mpr (List.ne_nil_of_mem hmem)
      have herase : (r.erase id).length = r.length - 1 :=
        List.length_erase_of_mem hmem
      cases q with
      | nil =>
          rw [startNextTask_nil _ rfl]
          refine ⟨?_, ?_, ?_, ?_, ?_⟩
          · dsimp only
            rw [herase]
            omega
          · dsimp only
            omega
          · intro hne
            exact absurd rfl hne
          · exact h4
          · intro hm
            dsimp only at hm ⊢
            have h5m := h5 hm
            have hlen1 : r.length = 1 := by omega
            obtain ⟨a, ha⟩ := List.length_eq_one.mp hlen1
            rw [ha] at hmem
            have hid : id = a := by simpa using hmem
            subst hid
            rw [ha, List.erase_cons_head]
            rw [ha] at h5m
            simp only [List.append_nil] at h5m ⊢
            exact h5m
      | cons fn rest =>
          rw [startNextTask_cons _ fn rest rfl (show ¬ c - 1 ≥ m by omega)]
          have hcm : c = m := h3 (by simp)
          refine ⟨?_, ?_, ?_, ?_, ?_⟩
          · dsimp only
            simp only [List.length_append, List.length_cons, List.length_nil, herase]
            omega
          · dsimp only
            omega
          · intro _
            dsimp only
            omega
          · dsimp only
            rw [List.append_assoc, List.singleton_append]
            exact h4
          · intro hm
            dsimp only at hm ⊢
            have h5m := h5 hm
            have hlen1 : r.length = 1 := by omega
            obtain ⟨a, ha⟩ := List.length_eq_one.mp hlen1
            rw [ha] at hmem
            have hid : id = a := by simpa using hmem
            subst hid
            rw [ha, List.erase_cons_head]
            rw [ha] at h5m
            simp only [List.nil_append]
            rw [List.append_assoc ((se ++ [id])) [fn] rest, List.singleton_append]
            rw [List.append_assoc se [id] (fn :: rest)] at h5m ⊢
            rw [List.singleton_append] at h5m ⊢
            exact h5m
    · rw [if_neg hmem]
      exact ⟨h1, h2, h3, h4, h5⟩

theorem throttlerInv_runEvents (evs : List TEvent) (s : ThrottlerState)
    (h : ThrottlerInv s) : ThrottlerInv (runEvents s evs) := by
  induction evs generalizing s with
  | nil => exact h
  | cons e rest ih => exact ih _ (throttlerInv_step s e h)

/-- C1: for every sequence of operations submitted to the shared
Throttler via run, and any mix of success and failure outcomes, the
count of concurrently running operations never exceeds
maxConcurrentTasks, and is never negative; the maxConcurrentTasks
of the singleton defaults to 20. -/
theorem throttler_concurrent_bounds (max : Nat) (evs : List TEvent) :
    0 ≤ (runEvents (Throttler.init max) evs).concurrentTasks
    ∧ (runEvents (Throttler.init max) evs).concurrentTasks
        ≤ (runEvents (Throttler.init max) evs).maxConcurrentTasks
    ∧ (runEvents (Throttler.init max) evs).maxConcurrentTasks = (max : Int)
    ∧ requestThrottler.maxConcurrentTasks = 20 := by
  obtain ⟨h1, h2, h3, h4, h5⟩ := throttlerInv_runEvents evs _ (throttlerInv_init max)
  refine ⟨by omega, h2, ?_, rfl⟩
  rw [runEvents_max]
  rfl

/-- c6WitnessState is the throttler state reached with a bound of 1
after two submissions: operation 0 running, operation 1 queued. -/
def c6WitnessState : ThrottlerState :=
  runEvents (Throttler.init 1) [TEvent.submit 0, TEvent.submit 1]

/-- C6: in any reachable throttler state, when a running operation
settles (the transition is literally the same whether it resolved or
rejected, so a failing operation never stalls the queue) the counter is
decremented and the head of the pending queue is started in its place,
so the counter is unchanged net, the queue loses its head, and the
started history gains exactly that head; moreover starts follow FIFO
submission order, and with maxConcurrentTasks = 1 operations settle in
submission order. -/
theorem throttler_settle_spec (s : ThrottlerState)
    (hreach : ∃ max evs, s = runEvents (Throttler.init max) evs)
    (id fn : Nat) (rest : List Nat) (ok : Bool)
    (hrun : id ∈ s.running) (hq : s.queue = fn :: rest) :
    (throttlerStep s (TEvent.settle id ok)).concurrentTasks = s.concurrentTasks
    ∧ (throttlerStep s (TEvent.settle id ok)).running = s.running.erase id ++ [fn]
    ∧ (throttlerStep s (TEvent.settle id ok)).queue = rest
    ∧ (throttlerStep s (TEvent.settle id ok)).started = s.started ++ [fn]
    ∧ (throttlerStep s (TEvent.settle id ok)).settled = s.settled ++ [id]
    ∧ throttlerStep s (TEvent.settle id true) = throttlerStep s (TEvent.settle id false)
    ∧ s.started ++ s.queue = s.submitted
    ∧ (s.maxConcurrentTasks = 1 → s.settled ++ s.running ++ s.queue = s.submitted) := by
  obtain ⟨max, evs, hs⟩ := hreach
  have hinv : ThrottlerInv s := by
    rw [hs]
    exact throttlerInv_runEvents evs _ (throttlerInv_init max)
  obtain ⟨h1, h2, h3, h4, h5⟩ := hinv
  have hstep : throttlerStep s (TEvent.settle id ok) =
      { s with queue := rest,
               concurrentTasks := s.concurrentTasks - 1 + 1,
               running := s.running.erase id ++ [fn],
               started := s.started ++ [fn],
               settled := s.settled ++ [id] } := by
    simp only [throttlerStep, Throttler.settle, if_pos hrun]
    rw [startNextTask_cons _ fn rest (by exact hq)
        (show ¬ s.concurrentTasks - 1 ≥ s.maxConcurrentTasks by omega)]
  refine ⟨?_, ?_, ?_, ?_, ?_, rfl, h4, h5⟩ <;> rw [hstep] <;> dsimp only
  omega

/-- Witness for C6: the hypotheses of throttler_settle_spec are
satisfiable, at the reachable state with bound 1 where operation 0 is
running and operation 1 is queued. -/
theorem throttler_settle_spec_witness :
    (throttlerStep c6WitnessState (TEvent.settle 0 true)).concurrentTasks
        = c6WitnessState.concurrentTasks
    ∧ (throttlerStep c6WitnessState (TEvent.settle 0 true)).running
        = c6WitnessState.running.erase 0 ++ [1]
    ∧ (throttlerStep c6WitnessState (TEvent.settle 0 true)).queue = []
    ∧ (throttlerStep c6WitnessState (TEvent.settle 0 true)).started
        = c6WitnessState.started ++ [1]
    ∧ (throttlerStep c6WitnessState (TEvent.settle 0 true)).settled
        = c6WitnessState.settled ++ [0]
    ∧ throttlerStep c6WitnessState (TEvent.settle 0 true)
        = throttlerStep c6WitnessState (TEvent.settle 0 false)
    ∧ c6WitnessState.started ++ c6WitnessState.queue = c6WitnessState.submitted
    ∧ (c6WitnessState.maxConcurrentTasks = 1 →
        c6WitnessState.settled ++ c6WitnessState.running ++ c6WitnessState.queue
          = c6WitnessState.submitted) :=
  throttler_settle_spec c6WitnessState
    ⟨1, [TEvent.submit 0, TEvent.submit 1], rfl⟩ 0 1 [] true
    (by decide) (by decide)

/-! ## Retry lemmas -/

theorem retryTryFrom_ok {E V : Type} (handle : Nat → Except E V) (aborted : Nat → Bool)
    (rand : Nat → ℚ) (fuel i : Nat) (le : Option E) (v : V)
    (h : handle i = Except.ok v) :
    retryTryFrom handle aborted rand (fuel + 1) i le = ⟨Except.ok v, [], 1⟩ := by
  simp [retryTryFrom, h]

theorem retryTryFrom_aborts {E V : Type} (handle : Nat → Except E V) (aborted : Nat → Bool)
    (rand : Nat → ℚ) (fuel i : Nat) (le : Option E) (err : E)
    (h : handle i = Except.error err) (hab : aborted i = true) :
    retryTryFrom handle aborted rand (fuel + 1) i le = ⟨Except.error (some err), [], 1⟩ := by
  simp [retryTryFrom, h, hab]

theorem retryTryFrom_err {E V : Type} (handle : Nat → Except E V) (aborted : Nat → Bool)
    (rand : Nat → ℚ) (fuel i : Nat) (le : Option E) (err : E)
    (h : handle i = Except.error err) (hab : aborted i = false) :
    retryTryFrom handle aborted rand (fuel + 1) i le =
      ⟨(retryTryFrom handle aborted rand fuel (i + 1) (some err)).result,
       retryDelay rand i :: (retryTryFrom handle aborted rand fuel (i + 1) (some err)).sleeps,
       (retryTryFrom handle aborted rand fuel (i + 1) (some err)).attemptsMade + 1⟩ := by
  simp [retryTryFrom, h, hab]

theorem retryTryFrom_attempts_le {E V : Type} (handle : Nat → Except E V)
    (aborted : Nat → Bool) (rand : Nat → ℚ) :
    ∀ (fuel i : Nat) (le : Option E),
      (retryTryFrom handle aborted rand fuel i le).attemptsMade ≤ fuel := by
  intro fuel
  induction fuel with
  | zero =>
      intro i le
      simp [retryTryFrom]
  | succ f ih =>
      intro i le
      cases hok : handle i with
      | ok v =>
          rw [retryTryFrom_ok handle aborted rand f i le v hok]
          dsimp only
          omega
      | error err =>
          cases hab : aborted i with
          | true =>
              rw [retryTryFrom_aborts handle aborted rand f i le err hok hab]
              dsimp only
              omega
          | false =>
              rw [retryTryFrom_err handle aborted rand f i le err hok hab]
              have := ih (i + 1) (some err)
              dsimp only
              omega

theorem retryTryFrom_sleeps_shape {E V : Type} (handle : Nat → Except E V)
    (aborted : Nat → Bool) (rand : Nat → ℚ) :
    ∀ (fuel i : Nat) (le : Option E) (d : ℚ),
      d ∈ (retryTryFrom handle aborted rand fuel i le).sleeps →
      ∃ j, d = retryDelay rand j := by
  intro fuel
  induction fuel with
  | zero =>
      intro i le d hd
      simp [retryTryFrom] at hd
  | succ f ih =>
      intro i le d hd
      cases hok : handle i with
      | ok v =>
          rw [retryTryFrom_ok handle aborted rand f i le v hok] at hd
          simp at hd
      | error err =>
          cases hab : aborted i with
          | true =>
              rw [retryTryFrom_aborts handle aborted rand f i le err hok hab] at hd
              simp at hd
          | false =>
              rw [retryTryFrom_err handle aborted rand f i le err hok hab] at hd
              dsimp only at hd
              rcases List.mem_cons.mp hd with hd1 | hd2
              · exact ⟨i, hd1⟩
              · exact ih (i + 1) (some err) d hd2

theorem range_map_delay (rand : Nat → ℚ) (i n : Nat) :
    (List.range (n + 1)).map (fun k => retryDelay rand (i + k)) =
      retryDelay rand i :: (List.range n).map (fun k => retryDelay rand (i + 1 + k)) := by
  rw [List.range_succ_eq_map]
  simp only [List.map_cons, List.map_map, Nat.add_zero]
  congr 1
  have hfun : ((fun k => retryDelay rand (i + k)) ∘ Nat.succ)
      = fun k => retryDelay rand (i + 1 + k) := by
    funext k
    simp only [Function.comp_apply]
    congr 1
    omega
  rw [hfun]

theorem retryTryFrom_success {E V : Type} (handle : Nat → Except E V)
    (aborted : Nat → Bool) (rand : Nat → ℚ) :
    ∀ (m fuel i : Nat) (le : Option E) (v : V),
      m < fuel →
      (∀ k, k < m → (∃ e, handle (i + k) = Except.error e) ∧ aborted (i + k) = false) →
      handle (i + m) = Except.ok v →
      retryTryFrom handle aborted rand fuel i le =
        ⟨Except.ok v, (List.range m).map (fun k => retryDelay rand (i + k)), m + 1⟩ := by
  intro m
  induction m with
  | zero =>
      intro fuel i le v hf hprev hok
      obtain ⟨f, rfl⟩ : ∃ f, fuel = f + 1 := ⟨fuel - 1, by omega⟩
      rw [retryTryFrom_ok handle aborted rand f i le v (by simpa using hok)]
      simp
  | succ n ih =>
      intro fuel i le v hf hprev hok
      obtain ⟨f, rfl⟩ : ∃ f, fuel = f + 1 := ⟨fuel - 1, by omega⟩
      obtain ⟨⟨e, he⟩, hab⟩ := hprev 0 (by omega)
      rw [retryTryFrom_err handle aborted rand f i le e (by simpa using he)
          (by simpa using hab)]
      rw [ih f (i + 1) (some e) v (by omega)
          (fun k hk => by
            obtain ⟨⟨e2, he2⟩, hab2⟩ := hprev (k + 1) (by omega)
            refine ⟨⟨e2, ?_⟩, ?_⟩
            · rw [show i + 1 + k = i + (k + 1) from by omega]
              exact he2
            · rw [show i + 1 + k = i + (k + 1) from by omega]
              exact hab2)
          (by rw [show i + 1 + n = i + (n + 1) from by omega]; exact hok)]
      dsimp only
      rw [range_map_delay]

theorem retryTryFrom_allfail {E V : Type} (handle : Nat → Except E V)
    (aborted : Nat → Bool) (rand : Nat → ℚ) :
    ∀ (fuel i : Nat) (le : Option E) (es : Nat → E),
      0 < fuel →
      (∀ k, k < fuel → handle (i + k) = Except.error (es k) ∧ aborted (i + k) = false) →
      retryTryFrom handle aborted rand fuel i le =
        ⟨Except.error (some (es (fuel - 1))),
         (List.range fuel).map (fun k => retryDelay rand (i + k)), fuel⟩ := by
  intro fuel
  induction fuel with
  | zero =>
      intro i le es h0 hall
      exact absurd h0 (by omega)
  | succ f ih =>
      intro i le es h0 hall
      obtain ⟨he, hab⟩ := hall 0 (by omega)
      rw [retryTryFrom_err handle aborted rand f i le (es 0) (by simpa using he)
          (by simpa using hab)]
      rcases Nat.eq_zero_or_pos f with hf0 | hfpos
      · subst hf0
        simp only [retryTryFrom]
        simp [List.range_succ]
      · rw [ih (i + 1) (some (es 0)) (fun k => es (k + 1)) hfpos
            (fun k hk => by
              obtain ⟨he2, hab2⟩ := hall (k + 1) (by omega)
              refine ⟨?_, ?_⟩
              · rw [show i + 1 + k = i + (k + 1) from by omega]
                exact he2
              · rw [show i + 1 + k = i + (k + 1) from by omega]
                exact hab2)]
        dsimp only
        rw [range_map_delay]
        rw [show f - 1 + 1 = f from by omega, Nat.add_sub_cancel]

theorem retryTryFrom_abort_after {E V : Type} (handle : Nat → Except E V)
    (aborted : Nat → Bool) (rand : Nat → ℚ) :
    ∀ (m fuel i : Nat) (le : Option E) (e : E),
      m < fuel →
      (∀ k, k < m → (∃ e2, handle (i + k) = Except.error e2) ∧ aborted (i + k) = false) →
      handle (i + m) = Except.error e →
      aborted (i + m) = true →
      retryTryFrom handle aborted rand fuel i le =
        ⟨Except.error (some e),
         (List.range m).map (fun k => retryDelay rand (i + k)), m + 1⟩ := by
  intro m
  induction m with
  | zero =>
      intro fuel i le e hf hprev hfail habort
      obtain ⟨f, rfl⟩ : ∃ f, fuel = f + 1 := ⟨fuel - 1, by omega⟩
      rw [retryTryFrom_aborts handle aborted rand f i le e (by simpa using hfail)
          (by simpa using habort)]
      simp
  | succ n ih =>
      intro fuel i le e hf hprev hfail habort
      obtain ⟨f, rfl⟩ : ∃ f, fuel = f + 1 := ⟨fuel - 1, by omega⟩
      obtain ⟨⟨e0, he0⟩, hab0⟩ := hprev 0 (by omega)
      rw [retryTryFrom_err handle aborted rand f i le e0 (by simpa using he0)
          (by simpa using hab0)]
      rw [ih f (i + 1) (some e0) e (by omega)
          (fun k hk => by
            obtain ⟨⟨e2, he2⟩, hab2⟩ := hprev (k + 1) (by omega)
            refine ⟨⟨e2, ?_⟩, ?_⟩
            · rw [show i + 1 + k = i + (k + 1) from by omega]
              exact he2
            · rw [show i + 1 + k = i + (k + 1) from by omega]
              exact hab2)
          (by rw [show i + 1 + n = i + (n + 1) from by omega]; exact hfail)
          (by rw [show i + 1 + n = i + (n + 1) from by omega]; exact habort)]
      dsimp only
      rw [range_map_delay]

/-- C2: with the aborted flag never set, Retry.try invokes the handle at
most 4 times; every backoff sleep is at least 50 ms; if attempt i
(0-based, i < 4) succeeds after i failures, the call resolves with that
value having slept exactly i times, with the sleeps being exactly the
delays 2 ^ j * 500 * random + 50 for j < i; and if all 4 attempts fail,
the call rejects with the error of the 4th attempt after exactly 4
invocations, never making a 5th. -/
theorem retryTry_spec {E V : Type} (handle : Nat → Except E V) (rand : Nat → ℚ)
    (hrand : ∀ k, 0 ≤ rand k) :
    (retryTry handle (fun _ => false) rand).attemptsMade ≤ 4
    ∧ (∀ d ∈ (retryTry handle (fun _ => false) rand).sleeps, 50 ≤ d)
    ∧ (∀ i v, i < 4 → (∀ j, j < i → ∃ e, handle j = Except.error e) →
        handle i = Except.ok v →
        (retryTry handle (fun _ => false) rand).result = Except.ok v
        ∧ (retryTry handle (fun _ => false) rand).sleeps
            = (List.range i).map (retryDelay rand)
        ∧ (retryTry handle (fun _ => false) rand).attemptsMade = i + 1)
    ∧ (∀ e3, (∀ j, j < 3 → ∃ e, handle j = Except.error e) →
        handle 3 = Except.error e3 →
        (retryTry handle (fun _ => false) rand).result = Except.error (some e3)
        ∧ (retryTry handle (fun _ => false) rand).attemptsMade = 4) := by
  refine ⟨?_, ?_, ?_, ?_⟩
  · exact retryTryFrom_attempts_le handle (fun _ => false) rand MAX_ATTEMPST 0 none
  · intro d hd
    obtain ⟨j, rfl⟩ :=
      retryTryFrom_sleeps_shape handle (fun _ => false) rand MAX_ATTEMPST 0 none d hd
    have hnn : (0 : ℚ) ≤ 2 ^ j * 500 * rand j :=
      mul_nonneg (by positivity) (hrand j)
    unfold retryDelay
    linarith
  · intro i v hi hfails hok
    have heq : retryTry handle (fun _ => false) rand =
        ⟨Except.ok v, (List.range i).map (fun k => retryDelay rand (0 + k)), i + 1⟩ := by
      unfold retryTry
      exact retryTryFrom_success handle (fun _ => false) rand i MAX_ATTEMPST 0 none v
        (by rw [show MAX_ATTEMPST = 4 from rfl]; omega)
        (fun k hk => ⟨by simpa using hfails k hk, rfl⟩)
        (by simpa using hok)
    rw [heq]
    have hfun : (fun k => retryDelay rand (0 + k)) = retryDelay rand := by
      funext k
      rw [Nat.zero_add]
    rw [hfun]
    exact ⟨rfl, rfl, rfl⟩
  · intro e3 hfails h3
    have hes : ∀ k, k < 4 →
        handle (0 + k) = Except.error
          (if hk : k < 3 then (hfails k hk).choose else e3)
        ∧ (fun (_ : Nat) => false) (0 + k) = false := by
      intro k hk4
      refine ⟨?_, rfl⟩
      by_cases hk : k < 3
      · rw [dif_pos hk, Nat.zero_add]
        exact (hfails k hk).choose_spec
      · rw [dif_neg hk, Nat.zero_add]
        have : k = 3 := by omega
        rw [this]
        exact h3
    have heq : retryTry handle (fun _ => false) rand =
        ⟨Except.error (some (if hk : MAX_ATTEMPST - 1 < 3
            then (hfails (MAX_ATTEMPST - 1) hk).choose else e3)),
         (List.range MAX_ATTEMPST).map (fun k => retryDelay rand (0 + k)),
         MAX_ATTEMPST⟩ := by
      unfold retryTry
      exact retryTryFrom_allfail handle (fun _ => false) rand MAX_ATTEMPST 0 none
        (fun k => if hk : k < 3 then (hfails k hk).choose else e3)
        (by rw [show MAX_ATTEMPST = 4 from rfl]; omega)
        (by rw [show MAX_ATTEMPST = 4 from rfl]; exact hes)
    rw [heq]
    refine ⟨?_, rfl⟩
    rw [show MAX_ATTEMPST - 1 = 3 from rfl, dif_neg (by omega)]

/-- Witness for C2: a handle failing on attempts 0, 1, 2 and succeeding
on attempt 3 resolves with the success value after exactly 4 invocations
and 3 sleeps. -/
theorem retryTry_spec_witness :
    (retryTry (fun j => if j < 3 then Except.error j else Except.ok 42)
        (fun _ => false) (fun _ => (0 : ℚ))).result = Except.ok 42
    ∧ (retryTry (fun j => if j < 3 then Except.error j else Except.ok 42)
        (fun _ => false) (fun _ => (0 : ℚ))).sleeps
          = (List.range 3).map (retryDelay (fun _ => (0 : ℚ)))
    ∧ (retryTry (fun j => if j < 3 then Except.error j else Except.ok 42)
        (fun _ => false) (fun _ => (0 : ℚ))).attemptsMade = 3 + 1 :=
  (retryTry_spec (fun j => if j < 3 then Except.error j else Except.ok 42)
      (fun _ => (0 : ℚ)) (fun _ => le_refl 0)).2.2.1 3 42 (by omega)
    (fun j hj => ⟨j, by simp [hj]⟩) (by simp)

/-- C7: if the aborted flag is set when the current attempt of Retry.try
fails, that error is rethrown immediately: the handle is not invoked
again and no further backoff sleeps happen, no matter how many attempts
remain. -/
theorem retryTry_abort_spec {E V : Type} (handle : Nat → Except E V)
    (aborted : Nat → Bool) (rand : Nat → ℚ) (i : Nat) (e : E)
    (hi : i < 4)
    (hprev : ∀ j, j < i → (∃ e2, handle j = Except.error e2) ∧ aborted j = false)
    (hfail : handle i = Except.error e) (habort : aborted i = true) :
    (retryTry handle aborted rand).result = Except.error (some e)
    ∧ (retryTry handle aborted rand).attemptsMade = i + 1
    ∧ (retryTry handle aborted rand).sleeps.length = i := by
  have heq : retryTry handle aborted rand =
      ⟨Except.error (some e),
       (List.range i).map (fun k => retryDelay rand (0 + k)), i + 1⟩ := by
    unfold retryTry
    exact retryTryFrom_abort_after handle aborted rand i MAX_ATTEMPST 0 none e
      (by rw [show MAX_ATTEMPST = 4 from rfl]; omega)
      (fun k hk => by simpa using hprev k hk)
      (by simpa using hfail)
      (by simpa using habort)
  rw [heq]
  refine ⟨rfl, rfl, ?_⟩
  simp

/-- Witness for C7: a handle failing every attempt under a wrapper whose
aborted flag becomes set at attempt 1 rejects right after attempt 1,
with a single sleep. -/
theorem retryTry_abort_spec_witness :
    (retryTry (fun _ => (Except.error 0 : Except Nat Nat))
        (fun j => j == 1) (fun _ => (0 : ℚ))).result = Except.error (some 0)
    ∧ (retryTry (fun _ => (Except.error 0 : Except Nat Nat))
        (fun j => j == 1) (fun _ => (0 : ℚ))).attemptsMade = 1 + 1
    ∧ (retryTry (fun _ => (Except.error 0 : Except Nat Nat))
        (fun j => j == 1) (fun _ => (0 : ℚ))).sleeps.length = 1 :=
  retryTry_abort_spec (fun _ => (Except.error 0 : Except Nat Nat))
    (fun j => j == 1) (fun _ => (0 : ℚ)) 1 0 (by omega)
    (fun j hj => ⟨⟨0, rfl⟩, by
      have h0 : j = 0 := by omega
      rw [h0]
      rfl⟩) rfl rfl

/-! ## Request claims -/

/-- C8: a single transfer attempt whose load event fires resolves with
the response exactly when the status is 0 or 200 or errors are ignored;
any other status without ignoreErrors rejects with an HTTP error. -/
theorem request_onload_spec {ρ : Type} (status : Int) (ign : Bool) (resp : ρ) :
    (requestLoadOutcome false ign (XhrEvent.onload status resp) = Except.ok resp
       ↔ (status = 0 ∨ status = 200 ∨ ign = true))
    ∧ (¬ (status = 0 ∨ status = 200 ∨ ign = true) →
         requestLoadOutcome false ign (XhrEvent.onload status resp)
           = Except.error (RequestError.httpError status)) := by
  cases hb : (acceptableResponseCodes.contains status || ign) with
  | true =>
      have hdis : status = 0 ∨ status = 200 ∨ ign = true := by
        unfold acceptableResponseCodes at hb
        rcases Bool.or_eq_true_iff.mp hb with h | h
        · have h2 := List.elem_iff.mp h
          simp only [List.mem_cons, List.not_mem_nil, or_false] at h2
          tauto
        · exact Or.inr (Or.inr h)
      have hval : requestLoadOutcome false ign (XhrEvent.onload status resp)
          = Except.ok resp := by
        unfold requestLoadOutcome
        rw [if_neg (by simp : ¬ (false = true))]
        dsimp only
        rw [hb, if_pos rfl]
      rw [hval]
      exact ⟨⟨fun _ => hdis, fun _ => rfl⟩, fun hn => absurd hdis hn⟩
  | false =>
      have hdis : ¬ (status = 0 ∨ status = 200 ∨ ign = true) := by
        unfold acceptableResponseCodes at hb
        rcases Bool.or_eq_false_iff.mp hb with ⟨h1, h2⟩
        intro hcase
        rcases hcase with h0 | h200 | hi
        · subst h0
          simp [List.elem_iff] at h1
        · subst h200
          simp [List.elem_iff] at h1
        · rw [hi] at h2
          cases h2
      have hval : requestLoadOutcome false ign (XhrEvent.onload status resp)
          = Except.error (RequestError.httpError status) := by
        unfold requestLoadOutcome
        rw [if_neg (by simp : ¬ (false = true))]
        dsimp only
        rw [hb, if_neg (by simp : ¬ (false = true))]
      rw [hval]
      exact ⟨⟨fun h => Except.noConfusion h, fun hd => absurd hd hdis⟩, fun _ => rfl⟩

/-- Witness for C8: status 404 without ignoreErrors rejects with an HTTP
error. -/
theorem request_onload_spec_witness :
    requestLoadOutcome false false (XhrEvent.onload 404 (7 : Nat))
      = Except.error (RequestError.httpError 404) :=
  (request_onload_spec 404 false 7).2 (by decide)

/-- C10: once the loadend event of a Request fires, isComplete returns
true from then on, whatever the stored status and aborted flag and
whatever further progress, status or abort updates happen; and a task
whose complete flag is true counts towards the finished-task
count, which depends only on the complete flags of the registered tasks,
never on their aborted state. -/
theorem request_onloadend_spec (r : RequestState) (event : ProgressEvent) :
    Request.isComplete (Request.onloadend r event) = true
    ∧ (∀ e2, Request.isComplete
        (Request.updateProgress (Request.onloadend r event) e2) = true)
    ∧ (∀ st, Request.isComplete
        (Request.onload (Request.onloadend r event) st) = true)
    ∧ Request.isComplete (Request.abort (Request.onloadend r event)) = true
    ∧ (∀ sys id, id ∈ sys.loader.tasks → (sys.store id).complete = true →
        1 ≤ Loader.finishedTasks sys)
    ∧ (∀ sys sys2 : LoaderSys, sys.loader = sys2.loader →
        (∀ id, id ∈ sys.loader.tasks →
          (sys.store id).complete = (sys2.store id).complete) →
        Loader.calculateProgress sys = Loader.calculateProgress sys2) := by
  refine ⟨rfl, fun e2 => rfl, fun st => rfl, rfl, ?_, ?_⟩
  · intro sys id hmem hc
    unfold Loader.finishedTasks
    have hin : id ∈ sys.loader.tasks.filter (fun j => (sys.store j).complete) :=
      List.mem_filter.mpr ⟨hmem, by rw [hc]⟩
    have hpos := List.length_pos.mpr (List.ne_nil_of_mem hin)
    omega
  · intro sys sys2 hl hc
    unfold Loader.calculateProgress Loader.totalTasks Loader.finishedTasks
    have ht : sys.loader.tasks = sys2.loader.tasks := by rw [hl]
    have hab : sys.loader.aborted = sys2.loader.aborted := by rw [hl]
    have hfeq : sys2.loader.tasks.filter (fun id => (sys.store id).complete)
        = sys2.loader.tasks.filter (fun id => (sys2.store id).complete) := by
      rw [← ht]
      exact List.filter_congr (fun a ha => by rw [hc a ha])
    rw [hab, ht, hfeq]

/-- Witness for C10: a request that stored a failing status 404 with the
aborted flag set is complete after loadend, and a loader task with
complete set (and aborted set) is counted as finished. -/
theorem request_onloadend_spec_witness :
    Request.isComplete
      (Request.onloadend ⟨false, 0, 0, false, 404, true, true⟩ ⟨false, 0, 0⟩) = true
    ∧ 1 ≤ Loader.finishedTasks ⟨⟨[5], false, false⟩, fun _ => ⟨true, true, 1, false⟩⟩ :=
  ⟨(request_onloadend_spec ⟨false, 0, 0, false, 404, true, true⟩ ⟨false, 0, 0⟩).1,
   (request_onloadend_spec ⟨false, 0, 0, false, 404, true, true⟩ ⟨false, 0, 0⟩).2.2.2.2.1
     ⟨⟨[5], false, false⟩, fun _ => ⟨true, true, 1, false⟩⟩ 5 (by decide) rfl⟩

/-! ## Loader lemmas -/

theorem abortFold_not_mem (l : List Nat) (store : Nat → MTask) (id : Nat)
    (h : id ∉ l) : abortFold l store id = store id := by
  induction l generalizing store with
  | nil => rfl
  | cons hd tl ih =>
      have hne : id ≠ hd := fun he => h (he ▸ List.mem_cons_self hd tl)
      have htl : id ∉ tl := fun ht => h (List.mem_cons_of_mem hd ht)
      unfold abortFold
      rw [List.foldl_cons]
      rw [show List.foldl (fun st j => setTask st j (taskAbort (st j)))
            (setTask store hd (taskAbort (store hd))) tl
          = abortFold tl (setTask store hd (taskAbort (store hd))) from rfl]
      rw [ih _ htl]
      unfold setTask
      rw [if_neg hne]

theorem abortFold_nodup_mem (l : List Nat) (store : Nat → MTask) (id : Nat)
    (hnd : l.Nodup) (hmem : id ∈ l) : abortFold l store id = taskAbort (store id) := by
  induction l generalizing store with
  | nil => cases hmem
  | cons hd tl ih =>
      have hhd : hd ∉ tl := (List.nodup_cons.mp hnd).1
      have hndtl : tl.Nodup := (List.nodup_cons.mp hnd).2
      unfold abortFold
      rw [List.foldl_cons]
      rw [show List.foldl (fun st j => setTask st j (taskAbort (st j)))
            (setTask store hd (taskAbort (store hd))) tl
          = abortFold tl (setTask store hd (taskAbort (store hd))) from rfl]
      rcases List.mem_cons.mp hmem with hid | hid
      · subst hid
        rw [abortFold_not_mem tl _ id hhd]
        unfold setTask
        rw [if_pos rfl]
      · have hne : id ≠ hd := fun he => hhd (he ▸ hid)
        rw [ih _ hndtl hid]
        unfold setTask
        rw [if_neg hne]

theorem cleanupFold_not_mem (l : List Nat) (store : Nat → MTask) (id : Nat)
    (h : id ∉ l) : cleanupFold l store id = store id := by
  induction l generalizing store with
  | nil => rfl
  | cons hd tl ih =>
      have hne : id ≠ hd := fun he => h (he ▸ List.mem_cons_self hd tl)
      have htl : id ∉ tl := fun ht => h (List.mem_cons_of_mem hd ht)
      unfold cleanupFold
      rw [List.foldl_cons]
      rw [show List.foldl (fun st j => setTask st j { st j with hasLoader := false })
            (setTask store hd { store hd with hasLoader := false }) tl
          = cleanupFold tl (setTask store hd { store hd with hasLoader := false }) from rfl]
      rw [ih _ htl]
      unfold setTask
      rw [if_neg hne]

theorem cleanupFold_mem (l : List Nat) (store : Nat → MTask) (id : Nat)
    (hmem : id ∈ l) : (cleanupFold l store id).hasLoader = false := by
  induction l generalizing store with
  | nil => cases hmem
  | cons hd tl ih =>
      unfold cleanupFold
      rw [List.foldl_cons]
      rw [show List.foldl (fun st j => setTask st j { st j with hasLoader := false })
            (setTask store hd { store hd with hasLoader := false }) tl
          = cleanupFold tl (setTask store hd { store hd with hasLoader := false }) from rfl]
      by_cases htl : id ∈ tl
      · exact ih _ htl
      · rcases List.mem_cons.mp hmem with hid | hid
        · subst hid
          rw [cleanupFold_not_mem tl _ id htl]
          unfold setTask
          rw [if_pos rfl]
        · exact absurd hid htl

theorem applyLEvent_aborted (s : LoaderSys) (e : LEvent)
    (h : s.loader.aborted = true) : (applyLEvent s e).loader.aborted = true := by
  cases e with
  | addTask id => exact h
  | markComplete id => exact h
  | updateProgress => exact h
  | resetTasks => exact h
  | abortLoader => rfl
  | cleanup => exact h

theorem applyLEvents_aborted (evs : List LEvent) (s : LoaderSys)
    (h : s.loader.aborted = true) : (applyLEvents s evs).loader.aborted = true := by
  induction evs generalizing s with
  | nil => exact h
  | cons e rest ih => exact ih _ (applyLEvent_aborted s e h)

theorem calculateProgress_aborted (s : LoaderSys) (h : s.loader.aborted = true) :
    Loader.calculateProgress s = 1 := by
  unfold Loader.calculateProgress
  rw [h]
  rw [if_pos rfl]

/-- C4: Loader.abort sets aborted, invokes abort() exactly once on every
task registered at that moment (and on no other task), and pins reported
progress at 1: the progress computed right after the call and after any
further sequence of loader operations is 1, unconditionally. -/
theorem loader_abort_spec (s : LoaderSys) (hnd : s.loader.tasks.Nodup) :
    (Loader.abort s).loader.aborted = true
    ∧ (∀ id, id ∈ s.loader.tasks →
        ((Loader.abort s).store id).abortCount = (s.store id).abortCount + 1
        ∧ ((Loader.abort s).store id).aborted = true)
    ∧ (∀ id, id ∉ s.loader.tasks → (Loader.abort s).store id = s.store id)
    ∧ Loader.calculateProgress (Loader.abort s) = 1
    ∧ (∀ evs, Loader.calculateProgress (applyLEvents (Loader.abort s) evs) = 1) := by
  refine ⟨rfl, ?_, ?_, ?_, ?_⟩
  · intro id hmem
    have h := abortFold_nodup_mem s.loader.tasks s.store id hnd hmem
    constructor
    · show (abortFold s.loader.tasks s.store id).abortCount = _
      rw [h]
      rfl
    · show (abortFold s.loader.tasks s.store id).aborted = true
      rw [h]
      rfl
  · intro id hmem
    exact abortFold_not_mem _ _ _ hmem
  · exact calculateProgress_aborted _ rfl
  · intro evs
    exact calculateProgress_aborted _ (applyLEvents_aborted evs _ rfl)

/-- Witness for C4: aborting a loader with the single fresh task 0 sets
the aborted flag, bumps the abort invocation count of that task from 0 to 1
and makes progress 1. -/
theorem loader_abort_spec_witness :
    (Loader.abort ⟨⟨[0], false, false⟩, fun _ => ⟨false, false, 0, true⟩⟩).loader.aborted = true
    ∧ ((Loader.abort ⟨⟨[0], false, false⟩, fun _ => ⟨false, false, 0, true⟩⟩).store 0).abortCount = 0 + 1
    ∧ Loader.calculateProgress
        (Loader.abort ⟨⟨[0], false, false⟩, fun _ => ⟨false, false, 0, true⟩⟩) = 1 :=
  ⟨(loader_abort_spec ⟨⟨[0], false, false⟩, fun _ => ⟨false, false, 0, true⟩⟩ (by decide)).1,
   ((loader_abort_spec ⟨⟨[0], false, false⟩, fun _ => ⟨false, false, 0, true⟩⟩ (by decide)).2.1
      0 (by decide)).1,
   (loader_abort_spec ⟨⟨[0], false, false⟩, fun _ => ⟨false, false, 0, true⟩⟩ (by decide)).2.2.2.1⟩

/-- C3: updateProgress is a no-op (dispatches nothing) when the error
flag is set; otherwise it dispatches calculateProgress, which is the
number of registered tasks whose isComplete() is true over the total
number of registered tasks, 0 when no task is registered and 1 when
aborted; in particular 4 registered tasks with 2 complete give exactly
1/2, and resetTasks on a non-aborted, non-errored loader dispatches 0
regardless of prior task states. -/
theorem loader_updateProgress_spec (s : LoaderSys) :
    (s.loader.error = true → Loader.updateProgress s = none)
    ∧ (s.loader.error = false →
        Loader.updateProgress s = some (Loader.calculateProgress s))
    ∧ (s.loader.error = false → s.loader.aborted = false → s.loader.tasks ≠ [] →
        Loader.updateProgress s
          = some ((Loader.finishedTasks s : ℚ) / (Loader.totalTasks s : ℚ)))
    ∧ (s.loader.error = false → s.loader.aborted = false →
        Loader.totalTasks s = 4 → Loader.finishedTasks s = 2 →
        Loader.updateProgress s = some (1 / 2))
    ∧ (s.loader.error = false → s.loader.aborted = true →
        Loader.updateProgress s = some 1)
    ∧ (s.loader.error = false → s.loader.aborted = false → s.loader.tasks = [] →
        Loader.updateProgress s = some 0)
    ∧ (s.loader.error = false → s.loader.aborted = false →
        (Loader.resetTasks s).2 = some 0) := by
  have hsome : s.loader.error = false →
      Loader.updateProgress s = some (Loader.calculateProgress s) := by
    intro herr
    unfold Loader.updateProgress
    rw [herr]
    rw [if_neg (by simp : ¬ (false = true))]
  have hcalc : s.loader.aborted = false → s.loader.tasks ≠ [] →
      Loader.calculateProgress s
        = (Loader.finishedTasks s : ℚ) / (Loader.totalTasks s : ℚ) := by
    intro hab hne
    unfold Loader.calculateProgress
    rw [hab]
    rw [if_neg (by simp : ¬ (false = true))]
    rw [if_neg (by
      unfold Loader.totalTasks
      intro h0
      exact hne (List.length_eq_zero.mp h0))]
  refine ⟨?_, hsome, ?_, ?_, ?_, ?_, ?_⟩
  · intro herr
    unfold Loader.updateProgress
    rw [herr]
    rw [if_pos rfl]
  · intro herr hab hne
    rw [hsome herr, hcalc hab hne]
  · intro herr hab h4 h2
    rw [hsome herr, hcalc hab (by
      intro h0
      rw [show Loader.totalTasks s = 0 from by
        unfold Loader.totalTasks
        rw [h0]
        rfl] at h4
      cases h4)]
    rw [h4, h2]
    norm_num
  · intro herr hab
    rw [hsome herr, calculateProgress_aborted s hab]
  · intro herr hab hnil
    rw [hsome herr]
    unfold Loader.calculateProgress
    rw [hab]
    rw [if_neg (by simp : ¬ (false = true))]
    rw [if_pos (by
      unfold Loader.totalTasks
      rw [hnil]
      rfl)]
  · intro herr hab
    unfold Loader.resetTasks
    dsimp only
    unfold Loader.updateProgress
    rw [show (⟨{ s.loader with tasks := [] }, s.store⟩ : LoaderSys).loader.error
          = s.loader.error from rfl, herr]
    rw [if_neg (by simp : ¬ (false = true))]
    unfold Loader.calculateProgress
    rw [show (⟨{ s.loader with tasks := [] }, s.store⟩ : LoaderSys).loader.aborted
          = s.loader.aborted from rfl, hab]
    rw [if_neg (by simp : ¬ (false = true))]
    simp [Loader.totalTasks]

/-- Witness for C3: a non-errored, non-aborted loader with 4 registered
tasks of which 2 are complete dispatches exactly 1/2, and its resetTasks
dispatches 0. -/
theorem loader_updateProgress_spec_witness :
    Loader.updateProgress ⟨⟨[0, 1, 2, 3], false, false⟩,
        fun j => if j < 2 then ⟨true, false, 0, true⟩ else ⟨false, false, 0, true⟩⟩
      = some (1 / 2)
    ∧ (Loader.resetTasks ⟨⟨[0, 1, 2, 3], false, false⟩,
        fun j => if j < 2 then ⟨true, false, 0, true⟩ else ⟨false, false, 0, true⟩⟩).2
      = some 0 :=
  ⟨(loader_updateProgress_spec ⟨⟨[0, 1, 2, 3], false, false⟩,
        fun j => if j < 2 then ⟨true, false, 0, true⟩ else ⟨false, false, 0, true⟩⟩).2.2.2.1
      rfl rfl (by decide) (by decide),
   (loader_updateProgress_spec ⟨⟨[0, 1, 2, 3], false, false⟩,
        fun j => if j < 2 then ⟨true, false, 0, true⟩ else ⟨false, false, 0, true⟩⟩).2.2.2.2.2.2
      rfl rfl⟩

/-- C9: after Loader.cleanup, from any state, the registered task list
is empty and the loader back-reference of every previously registered task is
detached, so a later progress event from such a task dispatches nothing
to the loader (the guard in AbstractTask.updateLoaderProgress makes it
return without calling anything, so nothing can throw); and cleanup is
idempotent. -/
theorem loader_cleanup_spec (s : LoaderSys) :
    (Loader.cleanup s).loader.tasks = []
    ∧ (∀ id, id ∈ s.loader.tasks → ((Loader.cleanup s).store id).hasLoader = false)
    ∧ (∀ id, id ∈ s.loader.tasks →
        updateLoaderProgress (Loader.cleanup s) id = none
        ∧ (markComplete (Loader.cleanup s) id).2 = none)
    ∧ Loader.cleanup (Loader.cleanup s) = Loader.cleanup s := by
  refine ⟨rfl, ?_, ?_, rfl⟩
  · intro id hmem
    exact cleanupFold_mem _ _ _ hmem
  · intro id hmem
    have hfl : ((Loader.cleanup s).store id).hasLoader = false :=
      cleanupFold_mem _ _ _ hmem
    constructor
    · unfold updateLoaderProgress
      rw [hfl]
      rw [if_neg (by simp : ¬ (false = true))]
    · have h2 : (setTask (Loader.cleanup s).store id
          { (Loader.cleanup s).store id with complete := true } id).hasLoader = false := by
        unfold setTask
        rw [if_pos rfl]
        exact hfl
      unfold markComplete
      dsimp only
      unfold updateLoaderProgress
      rw [show (⟨(Loader.cleanup s).loader,
            setTask (Loader.cleanup s).store id
              { (Loader.cleanup s).store id with complete := true }⟩ : LoaderSys).store id
          = setTask (Loader.cleanup s).store id
              { (Loader.cleanup s).store id with complete := true } id from rfl]
      rw [h2]
      rw [if_neg (by simp : ¬ (false = true))]

/-- Witness for C9: cleaning up a loader with the single bound task 0
empties the list, detaches the task, and a later completion event of
that task dispatches nothing. -/
theorem loader_cleanup_spec_witness :
    (Loader.cleanup ⟨⟨[0], false, false⟩, fun _ => ⟨false, false, 0, true⟩⟩).loader.tasks = []
    ∧ ((Loader.cleanup ⟨⟨[0], false, false⟩, fun _ => ⟨false, false, 0, true⟩⟩).store 0).hasLoader = false
    ∧ (markComplete (Loader.cleanup ⟨⟨[0], false, false⟩, fun _ => ⟨false, false, 0, true⟩⟩) 0).2 = none :=
  ⟨(loader_cleanup_spec ⟨⟨[0], false, false⟩, fun _ => ⟨false, false, 0, true⟩⟩).1,
   (loader_cleanup_spec ⟨⟨[0], false, false⟩, fun _ => ⟨false, false, 0, true⟩⟩).2.1 0 (by decide),
   ((loader_cleanup_spec ⟨⟨[0], false, false⟩, fun _ => ⟨false, false, 0, true⟩⟩).2.2.1 0 (by decide)).2⟩

/-! ## Loader progress monotonicity -/

theorem filter_length_mono (l : List Nat) (p q : Nat → Bool)
    (h : ∀ a ∈ l, p a = true → q a = true) :
    (l.filter p).length ≤ (l.filter q).length := by
  induction l with
  | nil => exact le_refl _
  | cons hd tl ih =>
      have htl : ∀ a ∈ tl, p a = true → q a = true :=
        fun a ha => h a (List.mem_cons_of_mem _ ha)
      simp only [List.filter_cons]
      by_cases hp : p hd = true
      · have hq := h hd (List.mem_cons_self _ _) hp
        rw [if_pos hp, if_pos hq]
        simp only [List.length_cons]
        exact Nat.succ_le_succ (ih htl)
      · rw [if_neg hp]
        by_cases hq : q hd = true
        · rw [if_pos hq]
          simp only [List.length_cons]
          exact Nat.le_succ_of_le (ih htl)
        · rw [if_neg hq]
          exact ih htl

theorem calculateProgress_markComplete_le (s : LoaderSys) (id : Nat) :
    Loader.calculateProgress s ≤ Loader.calculateProgress (markComplete s id).1 := by
  unfold markComplete
  dsimp only
  unfold Loader.calculateProgress Loader.totalTasks Loader.finishedTasks
  dsimp only
  cases hab : s.loader.aborted with
  | true =>
      rw [if_pos rfl, if_pos rfl]
  | false =>
      rw [if_neg (by simp : ¬ (false = true)), if_neg (by simp : ¬ (false = true))]
      by_cases h0 : s.loader.tasks.length = 0
      · rw [if_pos h0, if_pos h0]
      · rw [if_neg h0, if_neg h0]
        have hmono : (s.loader.tasks.filter (fun j => (s.store j).complete)).length
            ≤ (s.loader.tasks.filter (fun j =>
                (setTask s.store id { s.store id with complete := true } j).complete)).length := by
          apply filter_length_mono
          intro a ha hpa
          show (setTask s.store id { s.store id with complete := true } a).complete = true
          unfold setTask
          by_cases hai : a = id
          · rw [if_pos hai]
          · rw [if_neg hai]
            exact hpa
        have hden : (0 : ℚ) < (s.loader.tasks.length : ℚ) := by
          have hp := Nat.pos_of_ne_zero h0
          exact_mod_cast hp
        rw [div_le_div_iff_of_pos_right hden]
        exact_mod_cast hmono

theorem applyLEvent_progressOnly_mono (s : LoaderSys) (e : LEvent)
    (he : isProgressOnlyEvent e = true) :
    Loader.calculateProgress s ≤ Loader.calculateProgress (applyLEvent s e) := by
  cases e with
  | markComplete id => exact calculateProgress_markComplete_le s id
  | updateProgress => exact le_refl _
  | addTask id => exact absurd he (by simp [isProgressOnlyEvent])
  | resetTasks => exact absurd he (by simp [isProgressOnlyEvent])
  | abortLoader => exact absurd he (by simp [isProgressOnlyEvent])
  | cleanup => exact absurd he (by simp [isProgressOnlyEvent])

/-- C5 (amended): over any sequence of task completion events and
progress updates the computed progress of the loader is monotonically
non-decreasing; but contrary to the claim as stated, task registration
is a further exception besides resetTasks and abort: addTask of a
not-yet-complete task strictly lowers the completed-over-total ratio. -/
theorem loader_progress_monotone (s : LoaderSys) (evs : List LEvent)
    (h : ∀ e ∈ evs, isProgressOnlyEvent e = true) :
    Loader.calculateProgress s ≤ Loader.calculateProgress (applyLEvents s evs) := by
  induction evs generalizing s with
  | nil => exact le_refl _
  | cons e rest ih =>
      have h1 := h e (List.mem_cons_self _ _)
      have h2 : ∀ e2 ∈ rest, isProgressOnlyEvent e2 = true :=
        fun e2 he2 => h e2 (List.mem_cons_of_mem _ he2)
      exact le_trans (applyLEvent_progressOnly_mono s e h1) (ih (applyLEvent s e) h2)

/-- Counterexample to C5 as stated: starting from a fresh loader,
register task 0 and complete it (progress 1); the listed operation
addTask then drops progress to 1/2, so progress is not monotone over
sequences that include task registration. -/
theorem loader_progress_not_monotone :
    Loader.calculateProgress c5State = 1
    ∧ Loader.calculateProgress (applyLEvent c5State (LEvent.addTask 1)) = 1 / 2
    ∧ ¬ (Loader.calculateProgress c5State
          ≤ Loader.calculateProgress (applyLEvent c5State (LEvent.addTask 1))) := by
  have h1 : Loader.calculateProgress c5State = 1 := by
    have hfin : Loader.finishedTasks c5State = 1 := by decide
    have htot : Loader.totalTasks c5State = 1 := by decide
    have hab : c5State.loader.aborted = false := by decide
    unfold Loader.calculateProgress
    rw [hab, htot, hfin]
    norm_num
  have h2 : Loader.calculateProgress (applyLEvent c5State (LEvent.addTask 1)) = 1 / 2 := by
    have hfin : Loader.finishedTasks (applyLEvent c5State (LEvent.addTask 1)) = 1 := by decide
    have htot : Loader.totalTasks (applyLEvent c5State (LEvent.addTask 1)) = 2 := by decide
    have hab : (applyLEvent c5State (LEvent.addTask 1)).loader.aborted = false := by decide
    unfold Loader.calculateProgress
    rw [hab, htot, hfin]
    norm_num
  refine ⟨h1, h2, ?_⟩
  rw [h1, h2]
  norm_num

/-- Witness for C5 (amended): a completion event on the fresh loader
does not decrease progress. -/
theorem loader_progress_monotone_witness :
    Loader.calculateProgress initLoaderSys
      ≤ Loader.calculateProgress (applyLEvents initLoaderSys [LEvent.markComplete 0]) :=
  loader_progress_monotone initLoaderSys [LEvent.markComplete 0]
    (fun e he => by
      rw [List.mem_singleton.mp he]
      rfl)
